import Mathlib

/-!
Verification of the Intro-to-Machine-Learning evaluation harness.

The repository is a single notebook (`src/tutorials/Intro-to-Machine-Learning.ipynb`)
whose substantive logic is: split a labelled dataset into train/test parts with
`train_test_split(X, y, train_size, random_state)`, fit a dictionary of classifiers on
the training part and report each one's accuracy on the test part, where
`accuracy = accuracy_score(y_test, y_pred) = np.mean(y_pred == y_test) = clf.score(X_test, y_test)`.

The splitter, the accuracy metric and the classifier interface are external library
calls; their contract is fixed by the specification (§4.1 Dataset Splitter, §4.2
Classifier Evaluation Loop, §7 Error Handling).  We embed that contract here:
datasets are ordered lists of samples, the split permutes the index range with a
deterministic seed-keyed generator and takes the first `round(f·N)` indices for
training, accuracy is the exact-equality match fraction, and the evaluation loop
walks an insertion-ordered association list of named classifier handles.
-/

/-- Error kinds of the specification (§7): `InvalidArgument`, `IllegalState`,
`DivisionByZero`. -/
inductive ErrorKind : Type
  | invalidArgument : ErrorKind
  | illegalState : ErrorKind
  | divisionByZero : ErrorKind
  deriving DecidableEq, Repr

/-- Modelled from the spec: `train_test_split` uses "a deterministic pseudo-random
permutation of sample indices keyed by the seed"; the generator itself is a library
internal ("non-portable"), so we fix a concrete linear-congruential step. -/
def lcg (s : ℕ) : ℕ :=
  (1103515245 * s + 12345) % 2 ^ 31

/-- Fisher–Yates draw: with `fuel ≥ xs.length`, repeatedly pick the `s % length`-th
remaining element.  Structural recursion on `fuel` keeps the definition kernel-reducible. -/
def fyDraw : ℕ → ℕ → List ℕ → List ℕ
  | 0, _, _ => []
  | _ + 1, _, [] => []
  | fuel + 1, s, x :: xs =>
      let i := s % (x :: xs).length
      (x :: xs).getD i 0 :: fyDraw fuel (lcg s) ((x :: xs).eraseIdx i)

/-- Modelled from the spec: the deterministic pseudo-random permutation of
`0, …, n-1` keyed by `seed` that drives the split. -/
def shuffle (seed n : ℕ) : List ℕ :=
  fyDraw n (lcg seed) (List.range n)

/-- Selecting the rows of `l` named by the index list `is` (in that order). -/
def select (l : List α) (is : List ℕ) : List α :=
  is.filterMap fun i => l[i]?

theorem getD_cons_eraseIdx_perm {x : α} {d : α} :
    ∀ (xs : List α) (i : ℕ), i < (x :: xs).length →
      List.Perm ((x :: xs).getD i d :: (x :: xs).eraseIdx i) (x :: xs) := by
  intro xs
  induction xs generalizing x with
  | nil =>
      intro i hi
      have : i = 0 := by simpa using Nat.lt_one_iff.mp (by simpa using hi)
      subst this
      simp
  | cons y ys ih =>
      intro i hi
      match i with
      | 0 => simp
      | j + 1 =>
          have hj : j < (y :: ys).length := by simpa using hi
          have h2 := @ih y j hj
          have hstep :
              (x :: y :: ys).getD (j + 1) d :: (x :: y :: ys).eraseIdx (j + 1)
                = (y :: ys).getD j d :: x :: (y :: ys).eraseIdx j := by
            simp
          rw [hstep]
          exact (List.Perm.swap x ((y :: ys).getD j d) ((y :: ys).eraseIdx j)).trans
            (h2.cons x)

theorem fyDraw_perm : ∀ (fuel s : ℕ) (xs : List ℕ), xs.length ≤ fuel →
    List.Perm (fyDraw fuel s xs) xs := by
  intro fuel
  induction fuel with
  | zero =>
      intro s xs h
      have : xs = [] := List.length_eq_zero.mp (Nat.le_zero.mp h)
      subst this
      simp [fyDraw]
  | succ n ih =>
      intro s xs h
      match xs with
      | [] => simp [fyDraw]
      | x :: xs =>
          have hi : s % (x :: xs).length < (x :: xs).length :=
            Nat.mod_lt _ (by simp)
          have hlen : ((x :: xs).eraseIdx (s % (x :: xs).length)).length ≤ n := by
            rw [List.length_eraseIdx_of_lt hi]
            simpa using h
          show List.Perm
            ((x :: xs).getD (s % (x :: xs).length) 0 ::
              fyDraw n (lcg s) ((x :: xs).eraseIdx (s % (x :: xs).length)))
            (x :: xs)
          exact ((ih (lcg s) _ hlen).cons _).trans (getD_cons_eraseIdx_perm xs _ hi)

theorem shuffle_perm (seed n : ℕ) : List.Perm (shuffle seed n) (List.range n) :=
  fyDraw_perm n (lcg seed) (List.range n) (by simp)

theorem shuffle_length (seed n : ℕ) : (shuffle seed n).length = n := by
  simpa using (shuffle_perm seed n).length_eq

theorem shuffle_nodup (seed n : ℕ) : (shuffle seed n).Nodup :=
  ((shuffle_perm seed n).nodup_iff).mpr (List.nodup_range n)

theorem shuffle_mem_lt (seed n : ℕ) {i : ℕ} (h : i ∈ shuffle seed n) : i < n := by
  have := (shuffle_perm seed n).mem_iff.mp h
  simpa using this

theorem select_length {l : List α} {is : List ℕ} (h : ∀ i ∈ is, i < l.length) :
    (select l is).length = is.length := by
  induction is with
  | nil => rfl
  | cons a as ih =>
      have ha : a < l.length := h a (List.mem_cons_self a as)
      have hget : l[a]? = some l[a] := List.getElem?_eq_getElem ha
      simp only [select, List.filterMap_cons, hget]
      simpa [select] using ih fun b hb => h b (List.mem_cons_of_mem a hb)

theorem select_getElem? {l : List α} {is : List ℕ} (h : ∀ i ∈ is, i < l.length)
    {j i : ℕ} (hj : is[j]? = some i) :
    (select l is)[j]? = l[i]? := by
  induction is generalizing j with
  | nil => simp at hj
  | cons a as ih =>
      have ha : a < l.length := h a (List.mem_cons_self a as)
      have hget : l[a]? = some l[a] := List.getElem?_eq_getElem ha
      match j with
      | 0 =>
          have : a = i := by simpa using hj
          subst this
          simp only [select, List.filterMap_cons, hget]
          simp [hget]
      | j + 1 =>
          have hj' : as[j]? = some i := by simpa using hj
          simp only [select, List.filterMap_cons, hget]
          simpa [select] using ih (fun b hb => h b (List.mem_cons_of_mem a hb)) hj'

theorem select_append (l : List α) (is js : List ℕ) :
    select l (is ++ js) = select l is ++ select l js := by
  simp [select]

theorem select_range (l : List α) : select l (List.range l.length) = l := by
  apply List.ext_getElem?
  intro j
  rcases Nat.lt_or_ge j l.length with hj | hj
  · have hr : (List.range l.length)[j]? = some j := by
      simp [hj]
    exact select_getElem? (by simp) hr
  · have h1 : (select l (List.range l.length)).length ≤ j := by
      rw [select_length (by simp)]
      simpa using hj
    rw [List.getElem?_eq_none h1, List.getElem?_eq_none hj]

theorem select_perm {l : List α} {is js : List ℕ} (h : List.Perm is js) :
    List.Perm (select l is) (select l js) :=
  h.filterMap _

/-- Modelled from the spec: the Training part receives the first `round(f·N)` permuted
indices.  `Rat.floor (x + 1/2)` is the executable form of `round x` (cf. `round_eq`). -/
def trainSize (f : ℚ) (N : ℕ) : ℕ :=
  (Rat.floor (f * N + 1 / 2)).toNat

theorem trainSize_eq_round (f : ℚ) (N : ℕ) :
    trainSize f N = (round (f * N)).toNat := by
  have hfl : Rat.floor (f * N + 1 / 2) = ⌊f * N + 1 / 2⌋ :=
    ((Rat.floor_def' _).trans (Rat.floor_def).symm)
  rw [trainSize, hfl, round_eq]

theorem round_le_of_le {x : ℚ} {z : ℤ} (h : x ≤ z) : round x ≤ z := by
  have h1 : round x ≤ ⌈x⌉ := by
    rw [round]
    split
    · exact Int.floor_le_ceil x
    · exact le_refl _
  exact le_trans h1 (Int.ceil_le.mpr h)

theorem trainSize_le (f : ℚ) (N : ℕ) (hf : f ≤ 1) : trainSize f N ≤ N := by
  rw [trainSize_eq_round]
  have hx : f * N ≤ (N : ℚ) := by
    calc f * N ≤ 1 * N := by
          exact mul_le_mul_of_nonneg_right hf (by positivity)
      _ = N := one_mul _
  have hr : round (f * N) ≤ (N : ℤ) := round_le_of_le (by exact_mod_cast hx)
  omega

/-- Modelled from the spec: partition the seed-keyed permutation of `0, …, N-1` into
the first `round(f·N)` indices (Training) and the remainder (Test). -/
def splitIndices (f : ℚ) (seed N : ℕ) : List ℕ × List ℕ :=
  ((shuffle seed N).take (trainSize f N), (shuffle seed N).drop (trainSize f N))

/-- The four outputs of `train_test_split`, in the notebook's order
`X_train, X_test, y_train, y_test`. -/
structure SplitResult (α β : Type) where
  X_train : List α
  X_test : List α
  y_train : List β
  y_test : List β

/-- Modelled from the spec (§4.1): given features `X`, labels `y`, a training fraction
`f` and a seed, fail with `InvalidArgument` on mismatched feature/label counts, on
`f` outside `(0,1)` or on `N < 2`; otherwise select the rows named by the seed-keyed
split indices. -/
def train_test_split (X : List α) (y : List β) (f : ℚ) (seed : ℕ) :
    Except ErrorKind (SplitResult α β) :=
  if X.length ≠ y.length then .error .invalidArgument
  else if f ≤ 0 ∨ 1 ≤ f ∨ X.length < 2 then .error .invalidArgument
  else
    .ok ⟨select X (splitIndices f seed X.length).1,
         select X (splitIndices f seed X.length).2,
         select y (splitIndices f seed X.length).1,
         select y (splitIndices f seed X.length).2⟩

theorem train_test_split_ok (X : List α) (y : List β) (f : ℚ) (seed : ℕ)
    (hlen : X.length = y.length) (h0 : 0 < f) (h1 : f < 1) (hN : 2 ≤ X.length) :
    train_test_split X y f seed =
      .ok ⟨select X (splitIndices f seed X.length).1,
           select X (splitIndices f seed X.length).2,
           select y (splitIndices f seed X.length).1,
           select y (splitIndices f seed X.length).2⟩ := by
  rw [train_test_split, if_neg (by simpa using hlen), if_neg]
  push_neg
  exact ⟨h0, h1, hN⟩

theorem splitIndices_append (f : ℚ) (seed N : ℕ) :
    (splitIndices f seed N).1 ++ (splitIndices f seed N).2 = shuffle seed N :=
  List.take_append_drop _ _

theorem splitIndices_fst_length (f : ℚ) (seed N : ℕ) (hf : f ≤ 1) :
    (splitIndices f seed N).1.length = trainSize f N := by
  simp [splitIndices, shuffle_length, trainSize_le f N hf]

theorem splitIndices_snd_length (f : ℚ) (seed N : ℕ) :
    (splitIndices f seed N).2.length = N - trainSize f N := by
  simp [splitIndices, shuffle_length]

theorem splitIndices_fst_mem_lt (f : ℚ) (seed N : ℕ) {i : ℕ}
    (h : i ∈ (splitIndices f seed N).1) : i < N :=
  shuffle_mem_lt seed N (List.mem_of_mem_take h)

theorem splitIndices_snd_mem_lt (f : ℚ) (seed N : ℕ) {i : ℕ}
    (h : i ∈ (splitIndices f seed N).2) : i < N :=
  shuffle_mem_lt seed N (List.mem_of_mem_drop h)

theorem splitIndices_disjoint (f : ℚ) (seed N : ℕ) :
    List.Disjoint (splitIndices f seed N).1 (splitIndices f seed N).2 :=
  List.disjoint_take_drop (shuffle_nodup seed N) (le_refl _)

/-- Modelled from the spec (§4.2): the fraction of test samples whose predicted label
equals the true label, under exact equality; fails with `InvalidArgument` on mismatched
counts and with `DivisionByZero` on an empty test set. -/
def accuracy_score [DecidableEq β] (yTrue yPred : List β) : Except ErrorKind ℚ :=
  if yTrue.length ≠ yPred.length then .error .invalidArgument
  else if yTrue.length = 0 then .error .divisionByZero
  else .ok ((((yTrue.zip yPred).countP fun p => decide (p.1 = p.2)) : ℚ) / (yTrue.length : ℚ))

/-- The notebook's alternative `np.mean(y_pred == y_test)`: elementwise equality gives a
0/1 vector whose entries are summed and divided by its length. -/
def meanEq [DecidableEq β] (yPred yTrue : List β) : ℚ :=
  (((yPred.zip yTrue).map fun p => if p.1 = p.2 then (1 : ℚ) else 0).sum) /
    (((yPred.zip yTrue).length : ℚ))

/-- Modelled from the spec (§9): a training algorithm is a deterministic function from
the training features and labels to a prediction function; the three library estimators
(GaussianNB, DecisionTree, SVC) are opaque instances of this shape. -/
structure Algo (α β : Type) where
  train : List α → List β → (α → β)

/-- Modelled from the spec (§3): a classifier handle owns no data until trained;
`model = none` is the untrained state, `fit` populates it. -/
structure Handle (α β : Type) where
  algo : Algo α β
  model : Option (α → β)

/-- A freshly constructed, untrained handle. -/
def Handle.fresh (a : Algo α β) : Handle α β :=
  ⟨a, none⟩

/-- Training, as in `clf.fit(X_train, y_train)`: populates the handle's internal
parameters. -/
def Handle.fit (h : Handle α β) (X : List α) (y : List β) : Handle α β :=
  { h with model := some (h.algo.train X y) }

/-- Prediction, as in `clf.predict(X)`: maps the learned model over the feature rows;
predicting before training fails with `IllegalState` (§7). -/
def Handle.predict (h : Handle α β) (X : List α) : Except ErrorKind (List β) :=
  match h.model with
  | none => .error .illegalState
  | some m => .ok (X.map m)

/-- Scoring, as in `clf.score(X, y)`: predict then compare with `accuracy_score`;
scoring before training fails with `IllegalState` (§7). -/
def Handle.score [DecidableEq β] (h : Handle α β) (X : List α) (y : List β) :
    Except ErrorKind ℚ :=
  match h.model with
  | none => .error .illegalState
  | some m => accuracy_score y (X.map m)

/-- The notebook's evaluation loop (cell "Iterate over dictionary"): walk the named
handles in insertion order; for each, fit on the training part, then score on the test
part.  Any failure aborts the run (§7). -/
def evaluate [DecidableEq β] (cls : List (String × Handle α β))
    (Xtr : List α) (ytr : List β) (Xte : List α) (yte : List β) :
    Except ErrorKind (List (String × ℚ)) :=
  match cls with
  | [] => .ok []
  | (n, c) :: rest =>
      match (c.fit Xtr ytr).score Xte yte with
      | .error e => .error e
      | .ok a =>
          match evaluate rest Xtr ytr Xte yte with
          | .error e => .error e
          | .ok rs => .ok ((n, a) :: rs)

/-- One full run of the notebook: split the dataset with the given fraction and seed,
then evaluate every named classifier, fresh handles each run. -/
def runEvaluation [DecidableEq β] (cls : List (String × Algo α β))
    (X : List α) (y : List β) (f : ℚ) (seed : ℕ) :
    Except ErrorKind (List (String × ℚ)) :=
  match train_test_split X y f seed with
  | .error e => .error e
  | .ok r => evaluate (cls.map fun p => (p.1, Handle.fresh p.2)) r.X_train r.y_train
      r.X_test r.y_test

theorem countP_zip_eq_countP_range [DecidableEq β] :
    ∀ yt yp : List β, yt.length = yp.length →
      ((yt.zip yp).countP fun p => decide (p.1 = p.2)) =
        ((List.range yt.length).countP fun i => decide (yt[i]? = yp[i]?)) := by
  intro yt
  induction yt with
  | nil =>
      intro yp h
      simp
  | cons a as ih =>
      intro yp h
      match yp with
      | [] => simp at h
      | b :: bs =>
          have hlen : as.length = bs.length := by simpa using h
          have := ih bs hlen
          simp only [List.zip_cons_cons, List.countP_cons, List.length_cons,
            List.range_succ_eq_map, List.countP_map, Function.comp_def,
            Nat.succ_eq_add_one, List.getElem?_cons_succ, List.getElem?_cons_zero,
            Option.some.injEq] at *
          omega

/-- C1: over a non-empty test set of size `M` the reported accuracy is the number of
indices `i < M` with predicted label exactly equal to the true label, divided by `M`;
over an empty test set the evaluation fails (`DivisionByZero`) instead of returning a
value. -/
theorem C1_accuracy_is_match_fraction [DecidableEq β] (yTrue yPred : List β)
    (hlen : yTrue.length = yPred.length) :
    (0 < yTrue.length →
      accuracy_score yTrue yPred =
        .ok ((((List.range yTrue.length).countP fun i =>
          decide (yTrue[i]? = yPred[i]?)) : ℚ) / (yTrue.length : ℚ))) ∧
    (yTrue.length = 0 → accuracy_score yTrue yPred = .error .divisionByZero) := by
  constructor
  · intro hpos
    rw [accuracy_score, if_neg (by simpa using hlen), if_neg (by omega),
      countP_zip_eq_countP_range yTrue yPred hlen]
  · intro h0
    rw [accuracy_score, if_neg (by simpa using hlen), if_pos h0]

theorem C1_witness :
    accuracy_score ([0, 1, 2] : List ℕ) [0, 1, 1] = .ok (2 / 3) := by
  have h := (C1_accuracy_is_match_fraction ([0, 1, 2] : List ℕ) [0, 1, 1] rfl).1
    (by decide)
  have hc : ((List.range 3).countP fun i =>
      decide (([0, 1, 2] : List ℕ)[i]? = ([0, 1, 1] : List ℕ)[i]?)) = 2 := by decide
  rw [h]
  rw [show (([0, 1, 2] : List ℕ).length : ℚ) = 3 by norm_num] at *
  rw [show ([0, 1, 2] : List ℕ).length = 3 from rfl] at *
  rw [hc]
  norm_num

theorem accuracy_score_unit [DecidableEq β] {yt yp : List β} {a : ℚ}
    (h : accuracy_score yt yp = .ok a) : 0 ≤ a ∧ a ≤ 1 := by
  rw [accuracy_score] at h
  split at h
  · exact absurd h (by simp)
  · split at h
    · exact absurd h (by simp)
    · rename_i hne h0
      have ha : a = (((yt.zip yp).countP fun p => decide (p.1 = p.2)) : ℚ) /
          (yt.length : ℚ) := by
        exact (Except.ok.inj h).symm
      have hpos : (0 : ℚ) < (yt.length : ℚ) := by
        have : 0 < yt.length := Nat.pos_of_ne_zero h0
        exact_mod_cast this
      constructor
      · rw [ha]
        positivity
      · rw [ha, div_le_one hpos]
        have hle : (yt.zip yp).countP (fun p => decide (p.1 = p.2)) ≤ yt.length := by
          calc (yt.zip yp).countP (fun p => decide (p.1 = p.2))
              ≤ (yt.zip yp).length := List.countP_le_length _
            _ ≤ yt.length := by rw [List.length_zip]; omega
        exact_mod_cast hle

theorem score_unit [DecidableEq β] {h : Handle α β} {X : List α} {y : List β} {a : ℚ}
    (hs : h.score X y = .ok a) : 0 ≤ a ∧ a ≤ 1 := by
  rw [Handle.score] at hs
  split at hs
  · exact absurd hs (by simp)
  · exact accuracy_score_unit hs

theorem evaluate_unit [DecidableEq β] :
    ∀ (cls : List (String × Handle α β)) (Xtr : List α) (ytr : List β)
      (Xte : List α) (yte : List β) (rs : List (String × ℚ)),
      evaluate cls Xtr ytr Xte yte = .ok rs → ∀ p ∈ rs, 0 ≤ p.2 ∧ p.2 ≤ 1 := by
  intro cls
  induction cls with
  | nil =>
      intro Xtr ytr Xte yte rs h p hp
      rw [evaluate] at h
      have : rs = [] := (Except.ok.inj h).symm
      subst this
      simp at hp
  | cons hd rest ih =>
      obtain ⟨n, c⟩ := hd
      intro Xtr ytr Xte yte rs h p hp
      rw [evaluate] at h
      cases hsc : (c.fit Xtr ytr).score Xte yte with
      | error e =>
          rw [hsc] at h
          simp at h
      | ok a =>
          rw [hsc] at h
          cases hrest : evaluate rest Xtr ytr Xte yte with
          | error e =>
              rw [hrest] at h
              simp at h
          | ok rs' =>
              rw [hrest] at h
              have : (n, a) :: rs' = rs := Except.ok.inj h
              subst this
              rcases List.mem_cons.mp hp with hp | hp
              · subst hp
                exact score_unit hsc
              · exact ih Xtr ytr Xte yte rs' hrest p hp

/-- C6: every accuracy value produced by the evaluation loop lies in `[0,1]`; the value
is a pure immutable scalar, produced exactly once per classifier per run by
construction of the embedding (no operation of the model mutates a result). -/
theorem C6_accuracy_in_unit_interval [DecidableEq β]
    (cls : List (String × Handle α β)) (Xtr : List α) (ytr : List β)
    (Xte : List α) (yte : List β) (rs : List (String × ℚ))
    (h : evaluate cls Xtr ytr Xte yte = .ok rs) :
    ∀ p ∈ rs, 0 ≤ p.2 ∧ p.2 ≤ 1 :=
  evaluate_unit cls Xtr ytr Xte yte rs h

/-- A degenerate classifier that always predicts the fixed label `b`; stands in for a
concrete library estimator in concrete runs. -/
def constAlgo (b : β) : Algo α β :=
  ⟨fun _ _ _ => b⟩

theorem C6_witness :
    0 ≤ (("Gaussian Naive Bayes", (1 : ℚ)) : String × ℚ).2 ∧
      (("Gaussian Naive Bayes", (1 : ℚ)) : String × ℚ).2 ≤ 1 := by
  have heval : evaluate [("Gaussian Naive Bayes",
      Handle.fresh ((constAlgo 0 : Algo ℕ ℕ)))] [1, 2] [0, 0] [3] [0] =
      .ok [("Gaussian Naive Bayes", (1 : ℚ))] := by
    simp only [evaluate, Handle.fresh, Handle.fit, Handle.score, constAlgo,
      accuracy_score, List.map, List.zip, List.zipWith, List.countP, List.countP.go]
    norm_num
  exact C6_accuracy_in_unit_interval _ _ _ _ _ _ heval
    ("Gaussian Naive Bayes", (1 : ℚ)) (by simp)

theorem sum_indicator_eq_countP [DecidableEq β] (l : List (β × β)) :
    ((l.map fun p => if p.1 = p.2 then (1 : ℚ) else 0).sum) =
      ((l.countP fun p => decide (p.1 = p.2)) : ℚ) := by
  induction l with
  | nil => simp
  | cons p l ih =>
      by_cases hp : p.1 = p.2
      · simp [List.countP_cons, hp, ih]
        ring
      · simp [List.countP_cons, hp, ih]

theorem countP_zip_comm [DecidableEq β] :
    ∀ a b : List β, ((a.zip b).countP fun p => decide (p.1 = p.2)) =
      ((b.zip a).countP fun p => decide (p.1 = p.2)) := by
  intro a
  induction a with
  | nil =>
      intro b
      simp
  | cons x xs ih =>
      intro b
      match b with
      | [] => simp
      | y :: ys =>
          simp only [List.zip_cons_cons, List.countP_cons, ih ys]
          by_cases hxy : x = y
          · simp [hxy]
          · simp [hxy, Ne.symm hxy]

/-- C9: the three ways the notebook computes accuracy coincide on every trained
classifier and every compatible non-empty test set: `clf.score(X, y)` equals
`accuracy_score(y, predict(X))`, which returns exactly `np.mean(y_pred == y_test)`,
with `y_pred = clf.predict(X) = X.map m`. -/
theorem C9_three_accuracies_coincide [DecidableEq β] (a : Algo α β) (m : α → β)
    (X : List α) (y : List β) (hlen : X.length = y.length) (hpos : 0 < y.length) :
    Handle.score ⟨a, some m⟩ X y = accuracy_score y (X.map m) ∧
    accuracy_score y (X.map m) = .ok (meanEq (X.map m) y) ∧
    Handle.predict ⟨a, some m⟩ X = .ok (X.map m) := by
  refine ⟨rfl, ?_, rfl⟩
  have hmap : (X.map m).length = y.length := by simpa using hlen
  have hzlen : ((X.map m).zip y).length = y.length := by
    rw [List.length_zip, hmap]
    omega
  rw [accuracy_score, if_neg (by omega), if_neg (by omega), meanEq,
    sum_indicator_eq_countP, countP_zip_comm, hzlen]

theorem C9_witness :
    Handle.score ⟨constAlgo 0, some fun _ => (0 : ℕ)⟩ [1, 2, 3] [0, 0, 1] =
      accuracy_score [0, 0, 1] (([1, 2, 3] : List ℕ).map fun _ => (0 : ℕ)) ∧
    accuracy_score [0, 0, 1] (([1, 2, 3] : List ℕ).map fun _ => (0 : ℕ)) =
      .ok (meanEq (([1, 2, 3] : List ℕ).map fun _ => (0 : ℕ)) [0, 0, 1]) ∧
    Handle.predict ⟨constAlgo 0, some fun _ => (0 : ℕ)⟩ [1, 2, 3] =
      .ok (([1, 2, 3] : List ℕ).map fun _ => (0 : ℕ)) :=
  C9_three_accuracies_coincide (constAlgo 0) (fun _ => 0) [1, 2, 3] [0, 0, 1]
    rfl (by decide)

theorem train_test_split_inv {X : List α} {y : List β} {f : ℚ} {seed : ℕ}
    {r : SplitResult α β} (hr : train_test_split X y f seed = .ok r) :
    X.length = y.length ∧ 0 < f ∧ f < 1 ∧ 2 ≤ X.length ∧
    r = ⟨select X (splitIndices f seed X.length).1,
         select X (splitIndices f seed X.length).2,
         select y (splitIndices f seed X.length).1,
         select y (splitIndices f seed X.length).2⟩ := by
  rw [train_test_split] at hr
  split at hr
  · exact absurd hr (by simp)
  · split at hr
    · exact absurd hr (by simp)
    · rename_i h1 h2
      push_neg at h1 h2
      exact ⟨h1, h2.1, h2.2.1, h2.2.2, (Except.ok.inj hr).symm⟩

theorem mem_select {l : List α} {is : List ℕ} {a : α} :
    a ∈ select l is ↔ ∃ i ∈ is, l[i]? = some a := by
  simp [select, List.mem_filterMap]

theorem select_disjoint {l : List α} {is js : List ℕ} (hnd : l.Nodup)
    (his : ∀ i ∈ is, i < l.length) (hdisj : List.Disjoint is js) :
    List.Disjoint (select l is) (select l js) := by
  intro a ha hb
  obtain ⟨i, hi, hgi⟩ := mem_select.mp ha
  obtain ⟨j, hj, hgj⟩ := mem_select.mp hb
  have : i = j := List.getElem?_inj (his i hi) hnd (hgi.trans hgj.symm)
  subst this
  exact hdisj hi hj

theorem select_perm_self {l : List α} {is : List ℕ}
    (h : List.Perm is (List.range l.length)) : List.Perm (select l is) l := by
  have := @select_perm _ l _ _ h
  rwa [select_range] at this

/-- C2: for every dataset and every accepted fraction and seed, the split partitions
the sample positions into disjoint Training and Test index sets, the Training and Test
rows together are a permutation of the dataset (so their union, as a multiset of rows,
is the dataset), and the subset sizes add up to the dataset size; on duplicate-free
data the two row sets are also disjoint as sets of values. -/
theorem C2_split_is_partition (X : List α) (y : List β) (f : ℚ) (seed : ℕ)
    (r : SplitResult α β) (hr : train_test_split X y f seed = .ok r) :
    List.Disjoint (splitIndices f seed X.length).1 (splitIndices f seed X.length).2 ∧
    List.Perm (r.X_train ++ r.X_test) X ∧
    List.Perm (r.y_train ++ r.y_test) y ∧
    r.X_train.length + r.X_test.length = X.length ∧
    r.y_train.length + r.y_test.length = y.length ∧
    (X.Nodup → List.Disjoint r.X_train r.X_test) ∧
    (y.Nodup → List.Disjoint r.y_train r.y_test) := by
  obtain ⟨hlen, h0, h1, hN, hre⟩ := train_test_split_inv hr
  subst hre
  have hmem1 : ∀ i ∈ (splitIndices f seed X.length).1, i < X.length :=
    fun i hi => splitIndices_fst_mem_lt f seed X.length hi
  have hmem2 : ∀ i ∈ (splitIndices f seed X.length).2, i < X.length :=
    fun i hi => splitIndices_snd_mem_lt f seed X.length hi
  have hmem1y : ∀ i ∈ (splitIndices f seed X.length).1, i < y.length :=
    fun i hi => hlen ▸ hmem1 i hi
  have hmem2y : ∀ i ∈ (splitIndices f seed X.length).2, i < y.length :=
    fun i hi => hlen ▸ hmem2 i hi
  have hidx : List.Perm
      ((splitIndices f seed X.length).1 ++ (splitIndices f seed X.length).2)
      (List.range X.length) := by
    rw [splitIndices_append]
    exact shuffle_perm seed X.length
  have hXperm : List.Perm
      (select X (splitIndices f seed X.length).1 ++
        select X (splitIndices f seed X.length).2) X := by
    rw [← select_append]
    exact select_perm_self hidx
  have hyperm : List.Perm
      (select y (splitIndices f seed X.length).1 ++
        select y (splitIndices f seed X.length).2) y := by
    rw [← select_append]
    exact select_perm_self (by rwa [← hlen])
  refine ⟨splitIndices_disjoint f seed X.length, hXperm, hyperm, ?_, ?_, ?_, ?_⟩
  · have := hXperm.length_eq
    simpa using this
  · have := hyperm.length_eq
    simpa using this
  · intro hnd
    exact select_disjoint hnd hmem1 (splitIndices_disjoint f seed X.length)
  · intro hnd
    exact select_disjoint hnd hmem1y (splitIndices_disjoint f seed X.length)

theorem C2_witness :
    (train_test_split ([10, 20, 30, 40] : List ℕ) ([5, 6, 7, 8] : List ℕ)
        (1 / 2) 0).map
      (fun r => r.X_train.length + r.X_test.length) = .ok 4 := by
  have hr := train_test_split_ok ([10, 20, 30, 40] : List ℕ) ([5, 6, 7, 8] : List ℕ)
    (1 / 2) 0 rfl (by norm_num) (by norm_num) (by norm_num)
  have h := (C2_split_is_partition _ _ _ _ _ hr).2.2.2.1
  rw [hr, Except.map, h]
  rfl

/-- C3: an accepted split assigns exactly `round(f·N)` samples to Training and the
remaining `N - round(f·N)` samples to Test, for both the feature and the label halves;
the witness instantiates `N = 150`, `f = 0.8`, `seed = 7` and obtains sizes 120 and 30. -/
theorem C3_split_sizes (X : List α) (y : List β) (f : ℚ) (seed : ℕ)
    (r : SplitResult α β) (hr : train_test_split X y f seed = .ok r) :
    r.X_train.length = (round (f * X.length)).toNat ∧
    r.X_test.length = X.length - (round (f * X.length)).toNat ∧
    r.y_train.length = (round (f * X.length)).toNat ∧
    r.y_test.length = X.length - (round (f * X.length)).toNat := by
  obtain ⟨hlen, h0, h1, hN, hre⟩ := train_test_split_inv hr
  subst hre
  have hmem1 : ∀ i ∈ (splitIndices f seed X.length).1, i < X.length :=
    fun i hi => splitIndices_fst_mem_lt f seed X.length hi
  have hmem2 : ∀ i ∈ (splitIndices f seed X.length).2, i < X.length :=
    fun i hi => splitIndices_snd_mem_lt f seed X.length hi
  have hmem1y : ∀ i ∈ (splitIndices f seed X.length).1, i < y.length :=
    fun i hi => hlen ▸ hmem1 i hi
  have hmem2y : ∀ i ∈ (splitIndices f seed X.length).2, i < y.length :=
    fun i hi => hlen ▸ hmem2 i hi
  have ht : (splitIndices f seed X.length).1.length = trainSize f X.length :=
    splitIndices_fst_length f seed X.length h1.le
  have hd : (splitIndices f seed X.length).2.length = X.length - trainSize f X.length :=
    splitIndices_snd_length f seed X.length
  refine ⟨?_, ?_, ?_, ?_⟩
  · rw [select_length hmem1, ht, trainSize_eq_round]
  · rw [select_length hmem2, hd, trainSize_eq_round]
  · rw [select_length hmem1y, ht, trainSize_eq_round]
  · rw [select_length hmem2y, hd, trainSize_eq_round]

theorem C3_witness :
    (train_test_split (List.range 150) (List.range 150) (4 / 5) 7).map
      (fun r => (r.X_train.length, r.X_test.length)) = .ok (120, 30) := by
  have hr := train_test_split_ok (List.range 150) (List.range 150)
    (4 / 5) 7 rfl (by norm_num) (by norm_num) (by simp)
  have h := C3_split_sizes _ _ _ _ _ hr
  have hround : (round ((4 / 5 : ℚ) * ((List.range 150).length : ℕ))).toNat = 120 := by
    rw [List.length_range]
    have : ((4 / 5 : ℚ) * (150 : ℕ)) = 120 := by norm_num
    rw [this]
    simp
  have h1 := h.1
  have h2 := h.2.1
  simp only [List.length_range] at h1 h2 hround
  rw [hr, Except.map]
  simp only [List.length_range, h1, h2, hround]

/-- C5: for a well-formed dataset (matching feature and label counts), the split fails
exactly when the training fraction lies outside the open interval `(0,1)` — which
rejects `f = 0` and `f = 1`, where one subset would be empty — or when the dataset has
fewer than two samples, and every failure it produces is `InvalidArgument`. -/
theorem C5_invalid_argument_iff (X : List α) (y : List β) (f : ℚ) (seed : ℕ)
    (hlen : X.length = y.length) :
    ((train_test_split X y f seed = .error .invalidArgument) ↔
      (f ≤ 0 ∨ 1 ≤ f ∨ X.length < 2)) ∧
    (∀ e, train_test_split X y f seed = .error e → e = .invalidArgument) := by
  rw [train_test_split, if_neg (by simpa using hlen)]
  by_cases hc : f ≤ 0 ∨ 1 ≤ f ∨ X.length < 2
  · rw [if_pos hc]
    exact ⟨⟨fun _ => hc, fun _ => rfl⟩, fun e he => (Except.error.inj he).symm⟩
  · rw [if_neg hc]
    exact ⟨⟨fun he => absurd he (by simp), fun hc' => absurd hc' hc⟩,
      fun e he => absurd he (by simp)⟩

theorem C5_witness :
    train_test_split ([0, 1] : List ℕ) ([0, 1] : List ℕ) 2 0 =
      .error .invalidArgument :=
  (C5_invalid_argument_iff ([0, 1] : List ℕ) ([0, 1] : List ℕ) 2 0 rfl).1.mpr
    (by norm_num)

/-- C10: the split preserves the feature–label pairing: whenever position `j` of the
Training part was drawn from sample index `i`, the feature row at position `j` of
`X_train` and the label at position `j` of `y_train` are exactly the feature row and
label of row `i` of the original dataset, and likewise for the Test part; no feature
vector is ever paired with another sample's label. -/
theorem C10_pairing_preserved (X : List α) (y : List β) (f : ℚ) (seed : ℕ)
    (r : SplitResult α β) (hr : train_test_split X y f seed = .ok r) :
    (∀ j i : ℕ, (splitIndices f seed X.length).1[j]? = some i →
      r.X_train[j]? = X[i]? ∧ r.y_train[j]? = y[i]?) ∧
    (∀ j i : ℕ, (splitIndices f seed X.length).2[j]? = some i →
      r.X_test[j]? = X[i]? ∧ r.y_test[j]? = y[i]?) := by
  obtain ⟨hlen, h0, h1, hN, hre⟩ := train_test_split_inv hr
  subst hre
  have hmem1 : ∀ i ∈ (splitIndices f seed X.length).1, i < X.length :=
    fun i hi => splitIndices_fst_mem_lt f seed X.length hi
  have hmem2 : ∀ i ∈ (splitIndices f seed X.length).2, i < X.length :=
    fun i hi => splitIndices_snd_mem_lt f seed X.length hi
  have hmem1y : ∀ i ∈ (splitIndices f seed X.length).1, i < y.length :=
    fun i hi => hlen ▸ hmem1 i hi
  have hmem2y : ∀ i ∈ (splitIndices f seed X.length).2, i < y.length :=
    fun i hi => hlen ▸ hmem2 i hi
  exact ⟨fun j i hj => ⟨select_getElem? hmem1 hj, select_getElem? hmem1y hj⟩,
    fun j i hj => ⟨select_getElem? hmem2 hj, select_getElem? hmem2y hj⟩⟩

theorem C10_witness :
    (train_test_split ([10, 20, 30, 40] : List ℕ) ([5, 6, 7, 8] : List ℕ)
        (1 / 2) 0).map
      (fun r => (r.X_train[0]?, r.y_train[0]?)) = .ok (some 20, some 6) := by
  have hts : trainSize (1 / 2) 4 = 2 := by
    rw [trainSize_eq_round]
    have : ((1 / 2 : ℚ) * (4 : ℕ)) = 2 := by norm_num
    rw [this]
    simp
  have hsh : shuffle 0 4 = [1, 2, 3, 0] := by decide
  have hsi : (splitIndices (1 / 2) 0 4).1 = [1, 2] := by
    rw [splitIndices, hts, hsh]
    rfl
  have hr := train_test_split_ok ([10, 20, 30, 40] : List ℕ) ([5, 6, 7, 8] : List ℕ)
    (1 / 2) 0 rfl (by norm_num) (by norm_num) (by norm_num)
  have h := (C10_pairing_preserved _ _ _ _ _ hr).1 0 1
    (by rw [show (([10, 20, 30, 40] : List ℕ).length) = 4 from rfl, hsi]; rfl)
  rw [hr, Except.map]
  simp only [h.1, h.2]
  rfl

/-- C4: with identical seed, identical fraction, identical dataset, and the
deterministic training algorithms of the embedding, any two runs produce the identical
split and the identical accuracy value for every classifier.  The whole pipeline is a
pure function of `(cls, X, y, f, seed)`, so determinism holds by construction. -/
theorem C4_runs_deterministic [DecidableEq β] (cls : List (String × Algo α β))
    (X : List α) (y : List β) (f : ℚ) (seed : ℕ)
    (s1 s2 : Except ErrorKind (SplitResult α β))
    (r1 r2 : Except ErrorKind (List (String × ℚ)))
    (hs1 : s1 = train_test_split X y f seed) (hs2 : s2 = train_test_split X y f seed)
    (hr1 : r1 = runEvaluation cls X y f seed)
    (hr2 : r2 = runEvaluation cls X y f seed) :
    s1 = s2 ∧ r1 = r2 := by
  subst hs1 hs2 hr1 hr2
  exact ⟨rfl, rfl⟩

theorem C4_witness :
    train_test_split ([10, 20, 30, 40] : List ℕ) ([5, 6, 7, 8] : List ℕ) (1 / 2) 0 =
      train_test_split ([10, 20, 30, 40] : List ℕ) ([5, 6, 7, 8] : List ℕ) (1 / 2) 0 ∧
    runEvaluation [("Gaussian Naive Bayes", constAlgo 0)]
        ([10, 20, 30, 40] : List ℕ) ([5, 6, 7, 8] : List ℕ) (1 / 2) 0 =
      runEvaluation [("Gaussian Naive Bayes", constAlgo 0)]
        ([10, 20, 30, 40] : List ℕ) ([5, 6, 7, 8] : List ℕ) (1 / 2) 0 :=
  C4_runs_deterministic [("Gaussian Naive Bayes", constAlgo 0)]
    [10, 20, 30, 40] [5, 6, 7, 8] (1 / 2) 0 _ _ _ _ rfl rfl rfl rfl

theorem accuracy_score_error_ne_illegalState [DecidableEq β] {yt yp : List β}
    {e : ErrorKind} (h : accuracy_score yt yp = .error e) : e ≠ .illegalState := by
  rw [accuracy_score] at h
  split at h
  · intro hc
    subst hc
    exact absurd (Except.error.inj h) (by simp)
  · split at h
    · intro hc
      subst hc
      exact absurd (Except.error.inj h) (by simp)
    · exact absurd h (by simp)

theorem evaluate_error_ne_illegalState [DecidableEq β] :
    ∀ (cls : List (String × Handle α β)) (Xtr : List α) (ytr : List β)
      (Xte : List α) (yte : List β) (e : ErrorKind),
      evaluate cls Xtr ytr Xte yte = .error e → e ≠ .illegalState := by
  intro cls
  induction cls with
  | nil =>
      intro Xtr ytr Xte yte e h
      rw [evaluate] at h
      exact absurd h (by simp)
  | cons hd rest ih =>
      obtain ⟨n, c⟩ := hd
      intro Xtr ytr Xte yte e h
      rw [evaluate] at h
      cases hsc : (c.fit Xtr ytr).score Xte yte with
      | error e' =>
          rw [hsc] at h
          have he : e' = e := Except.error.inj h
          subst he
          rw [Handle.score, Handle.fit] at hsc
          exact accuracy_score_error_ne_illegalState hsc
      | ok a =>
          rw [hsc] at h
          cases hrest : evaluate rest Xtr ytr Xte yte with
          | error e' =>
              rw [hrest] at h
              have he : e' = e := Except.error.inj h
              subst he
              exact ih Xtr ytr Xte yte _ hrest
          | ok rs' =>
              rw [hrest] at h
              exact absurd h (by simp)

/-- C7: scoring a classifier handle on which `fit` has never been called fails with
`IllegalState`; in the evaluation loop each handle is fitted exactly once — its model
is populated by the single `fit` call — before `score`, so the loop can never surface
an `IllegalState` error. -/
theorem C7_fit_exactly_once_before_score [DecidableEq β] (a : Algo α β)
    (X : List α) (y : List β) (cls : List (String × Handle α β))
    (Xtr : List α) (ytr : List β) (Xte : List α) (yte : List β) (e : ErrorKind)
    (he : evaluate cls Xtr ytr Xte yte = .error e) :
    (Handle.fresh a).score X y = .error .illegalState ∧
    (∀ c : Handle α β, (c.fit Xtr ytr).model = some (c.algo.train Xtr ytr)) ∧
    e ≠ .illegalState :=
  ⟨rfl, fun _ => rfl, evaluate_error_ne_illegalState cls Xtr ytr Xte yte e he⟩

theorem C7_witness :
    (Handle.fresh ((constAlgo 0 : Algo ℕ ℕ))).score [1] [0] =
      .error .illegalState ∧
    (∀ c : Handle ℕ ℕ, (c.fit [1] [0]).model = some (c.algo.train [1] [0])) ∧
    ErrorKind.divisionByZero ≠ ErrorKind.illegalState := by
  have he : evaluate [("Gaussian Naive Bayes",
      Handle.fresh ((constAlgo 0 : Algo ℕ ℕ)))] [1] [0] [] [] =
      .error .divisionByZero := by
    simp [evaluate, Handle.fresh, Handle.fit, Handle.score, constAlgo, accuracy_score]
  exact C7_fit_exactly_once_before_score (constAlgo 0) [1] [0] _ _ _ _ _ _ he

theorem evaluate_names [DecidableEq β] :
    ∀ (cls : List (String × Handle α β)) (Xtr : List α) (ytr : List β)
      (Xte : List α) (yte : List β) (rs : List (String × ℚ)),
      evaluate cls Xtr ytr Xte yte = .ok rs →
      rs.length = cls.length ∧ rs.map Prod.fst = cls.map Prod.fst := by
  intro cls
  induction cls with
  | nil =>
      intro Xtr ytr Xte yte rs h
      rw [evaluate] at h
      have : rs = [] := (Except.ok.inj h).symm
      subst this
      exact ⟨rfl, rfl⟩
  | cons hd rest ih =>
      obtain ⟨n, c⟩ := hd
      intro Xtr ytr Xte yte rs h
      rw [evaluate] at h
      cases hsc : (c.fit Xtr ytr).score Xte yte with
      | error e =>
          rw [hsc] at h
          simp at h
      | ok a =>
          rw [hsc] at h
          cases hrest : evaluate rest Xtr ytr Xte yte with
          | error e =>
              rw [hrest] at h
              simp at h
          | ok rs' =>
              rw [hrest] at h
              have : (n, a) :: rs' = rs := Except.ok.inj h
              subst this
              have := ih Xtr ytr Xte yte rs' hrest
              simp [this.1, this.2]

/-- C8: the evaluation loop over the insertion-ordered association of classifier names
to handles returns an ordered sequence of (name, accuracy) pairs whose length equals
the number of classifiers and whose names appear in exactly the insertion order. -/
theorem C8_ordered_names [DecidableEq β] (cls : List (String × Handle α β))
    (Xtr : List α) (ytr : List β) (Xte : List α) (yte : List β)
    (rs : List (String × ℚ)) (h : evaluate cls Xtr ytr Xte yte = .ok rs) :
    rs.length = cls.length ∧ rs.map Prod.fst = cls.map Prod.fst :=
  evaluate_names cls Xtr ytr Xte yte rs h

theorem C8_witness :
    (evaluate [("Gaussian Naive Bayes", Handle.fresh ((constAlgo 0 : Algo ℕ ℕ))),
        ("Decision Tree Classifier", Handle.fresh (constAlgo 1)),
        ("Support Vector Machines", Handle.fresh (constAlgo 0))]
      [1, 2] [0, 0] [3] [0]).map (fun rs => rs.map Prod.fst) =
      .ok ["Gaussian Naive Bayes", "Decision Tree Classifier",
        "Support Vector Machines"] := by
  have heval : evaluate [("Gaussian Naive Bayes",
        Handle.fresh ((constAlgo 0 : Algo ℕ ℕ))),
        ("Decision Tree Classifier", Handle.fresh (constAlgo 1)),
        ("Support Vector Machines", Handle.fresh (constAlgo 0))]
      [1, 2] [0, 0] [3] [0] =
      .ok [("Gaussian Naive Bayes", 1), ("Decision Tree Classifier", 0),
        ("Support Vector Machines", 1)] := by
    simp only [evaluate, Handle.fresh, Handle.fit, Handle.score, constAlgo,
      accuracy_score, List.map, List.zip, List.zipWith, List.countP, List.countP.go]
    norm_num
  have h := C8_ordered_names _ _ _ _ _ _ heval
  rw [heval, Except.map, h.2]
  rfl
